import Mathlib

set_option maxRecDepth 8192

/-!
Shallow embedding of the access-mediation core of
Public/Src/Sandbox/Linux/bxl_observer.cpp: the duplicate-suppression cache
(BxlObserver::IsCacheHit and its event-kind coalescing switch), the in-place
path normalization and symlink resolution loop (BxlObserver::resolve_path,
BxlObserver::normalize_path_at), the report channel (BxlObserver::Send,
BxlObserver::SendReport), and the mediation entry points
(report_access overloads, report_access_fd, report_access_at,
report_firstAllowWriteCheck).

C char buffers are modeled as immutable character lists (the null terminator
is implicit: the list holds the characters before it); pointer arithmetic on
the scan pointer becomes an explicit index; the readlink system call and the
other environment queries become explicit oracles passed in as parameters.
-/

/-- A C path buffer: the characters before the null terminator. -/
abbrev FsPath := List Char

/-- The es_event_type_t constants that appear in bxl_observer.cpp. -/
inductive EsEvent where
  | NOTIFY_FORK
  | NOTIFY_EXEC
  | NOTIFY_EXIT
  | NOTIFY_TRUNCATE
  | NOTIFY_SETATTRLIST
  | NOTIFY_SETEXTATTR
  | NOTIFY_DELETEEXTATTR
  | NOTIFY_SETFLAGS
  | NOTIFY_SETOWNER
  | NOTIFY_SETMODE
  | NOTIFY_WRITE
  | NOTIFY_UTIMES
  | NOTIFY_SETTIME
  | NOTIFY_SETACL
  | NOTIFY_GETATTRLIST
  | NOTIFY_GETEXTATTR
  | NOTIFY_LISTEXTATTR
  | NOTIFY_ACCESS
  | NOTIFY_STAT
  | NOTIFY_OPEN
  | NOTIFY_READLINK
  | NOTIFY_LOOKUP
deriving DecidableEq, Repr

/-- The event-kind coalescing switch of BxlObserver::IsCacheHit
(bxl_observer.cpp lines 127-154).  The eleven write-class cases end with
a break and so key on NOTIFY_WRITE.  The five read-class cases
(GETATTRLIST, GETEXTATTR, LISTEXTATTR, ACCESS, STAT) assign
key = ES_EVENT_TYPE_NOTIFY_STAT but have no break, so control falls
through into the default label, which overwrites key with the event
itself; the net effect, embedded here, is that those kinds key on
themselves. -/
def coalesce (event : EsEvent) : EsEvent :=
  match event with
  | .NOTIFY_TRUNCATE => .NOTIFY_WRITE
  | .NOTIFY_SETATTRLIST => .NOTIFY_WRITE
  | .NOTIFY_SETEXTATTR => .NOTIFY_WRITE
  | .NOTIFY_DELETEEXTATTR => .NOTIFY_WRITE
  | .NOTIFY_SETFLAGS => .NOTIFY_WRITE
  | .NOTIFY_SETOWNER => .NOTIFY_WRITE
  | .NOTIFY_SETMODE => .NOTIFY_WRITE
  | .NOTIFY_WRITE => .NOTIFY_WRITE
  | .NOTIFY_UTIMES => .NOTIFY_WRITE
  | .NOTIFY_SETTIME => .NOTIFY_WRITE
  | .NOTIFY_SETACL => .NOTIFY_WRITE
  | e => e

/-- Association-list lookup with decidable key equality, modeling
unordered_map::find / the symlink table queried by readlink. -/
def lookupA {α β : Type} [DecidableEq α] (k : α) : List (α × β) → Option β
  | [] => none
  | (a, b) :: l => if a = k then some b else lookupA k l

/-- Replace the value stored at key k (first occurrence), modeling in-place
mutation of an unordered_map entry. -/
def updateA {α β : Type} [DecidableEq α] (k : α) (v : β) : List (α × β) → List (α × β)
  | [] => []
  | (a, b) :: l => if a = k then (a, v) :: l else (a, b) :: updateA k v l

/-- unordered_set::insert: returns whether the element was newly inserted,
together with the resulting set (here a duplicate-free list). -/
def setInsert (set : List FsPath) (p : FsPath) : Bool × List FsPath :=
  if p ∈ set then (false, set) else (true, set ++ [p])

/-- The mutable state consulted by IsCacheHit: the disposed flag and the
cache_ map from coalesced event kind to the set of already-seen paths. -/
structure CacheState where
  disposed : Bool
  cache : List (EsEvent × List FsPath)
deriving DecidableEq, Repr

/-- BxlObserver::IsCacheHit (bxl_observer.cpp lines 110-178).  The
lockAcquired parameter is the outcome of cacheMtx_.try_lock_for(1ms):
false models a lock-acquisition timeout.  Returns the boolean result of
the C function together with the cache state it leaves behind. -/
def IsCacheHit (lockAcquired : Bool) (s : CacheState) (event : EsEvent)
    (path secondPath : FsPath) : Bool × CacheState :=
  if s.disposed = true ∨ 0 < secondPath.length ∨
      event = .NOTIFY_FORK ∨ event = .NOTIFY_EXEC ∨ event = .NOTIFY_EXIT then
    (false, s)
  else
    let key := coalesce event
    if lockAcquired = false then
      (false, s)
    else
      match lookupA key s.cache with
      | none => (false, { s with cache := s.cache ++ [(key, [path])] })
      | some set =>
        let ins := setInsert set path
        (!ins.1, { s with cache := updateA key ins.2 s.cache })

/-- Whether the pair (key, path) is recorded in the cache. -/
def cacheMem (s : CacheState) (k : EsEvent) (p : FsPath) : Bool :=
  match lookupA k s.cache with
  | none => false
  | some set => decide (p ∈ set)

/-- The table of symlinks on the filesystem: an entry (p, t) means that
real_readlink(p) succeeds and yields target t; readlink of any other path
returns -1 (not a symlink). -/
abbrev SymTable := List (FsPath × FsPath)

/-- find_prev_slash (bxl_observer.cpp lines 504-508): index of the nearest
slash strictly before position i.  The C loop relies on the buffer starting
with a slash; index 0 is the fallback. -/
def prevSlash (buf : FsPath) : Nat → Nat
  | 0 => 0
  | j + 1 => if buf[j]? = some '/' then j else prevSlash buf j

/-- The loop state of BxlObserver::resolve_path: the buffer, the scan index
(pFullpath - fullpath), the visited set for symlink-loop detection, and the
readlink access reports emitted so far. -/
structure RState where
  buf : FsPath
  i : Nat
  visited : List FsPath
  reports : List FsPath
deriving DecidableEq, Repr

/-- Outcome of one iteration of the resolve_path while loop. -/
inductive RStep where
  | cont (s : RState)
  | done (buf : FsPath) (reports : List FsPath)
deriving DecidableEq, Repr

/-- The readlink half of one resolve_path iteration (lines 555-605):
query readlink at a slash boundary (or at the terminal null when
followFinalSymlink is set), and on a symlink either stop at a loop,
or report it and splice in its target (absolute targets restart the scan,
relative targets replace the segment just resolved). -/
def rstepLink (links : SymTable) (follow : Bool) (s : RState) : RStep :=
  let c := s.buf[s.i]?
  let t : Option FsPath :=
    if c = some '/' ∨ (c = none ∧ follow = true) then lookupA (s.buf.take s.i) links
    else none
  match t with
  | none =>
    if c = none then .done s.buf s.reports
    else .cont { s with i := s.i + 1 }
  | some target =>
    let truncated := s.buf.take s.i
    if truncated ∈ s.visited then
      -- the C code breaks with the null written at position i and never
      -- restored, so the resulting string is the truncated path
      .done truncated s.reports
    else
      let rest :=
        if target.getLast? = some '/' ∧ c = some '/' then s.buf.drop (s.i + 1)
        else s.buf.drop s.i
      let combined := target ++ rest
      if combined.head? = some '/' then
        .cont { buf := combined, i := 1,
                visited := truncated :: s.visited, reports := s.reports ++ [truncated] }
      else
        let j := prevSlash s.buf s.i
        .cont { buf := s.buf.take (j + 1) ++ combined, i := j + 1,
                visited := truncated :: s.visited, reports := s.reports ++ [truncated] }

/-- One iteration of the resolve_path while loop (lines 523-605): first the
"//", "/./" and "/../" collapsing (shift_left becomes take ++ drop; in the
dot-dot case shiftLen = i - j2 and i + 1 - shiftLen = j2 + 1), then the
readlink handling. -/
def rstep (links : SymTable) (follow : Bool) (s : RState) : RStep :=
  if s.buf[s.i]? = some '/' then
    let j := prevSlash s.buf s.i
    if s.i - j - 1 = 0 then
      .cont { s with buf := s.buf.take s.i ++ s.buf.drop (s.i + 1) }
    else if s.i - j - 1 = 1 ∧ s.buf[s.i - 1]? = some '.' then
      .cont { s with buf := s.buf.take (s.i - 1) ++ s.buf.drop (s.i + 1), i := s.i - 1 }
    else if s.i - j - 1 = 2 ∧ s.buf[s.i - 1]? = some '.' ∧
        s.buf[s.i - 2]? = some '.' then
      let j2 := if 0 < j then prevSlash s.buf j else j
      .cont { s with buf := s.buf.take (j2 + 1) ++ s.buf.drop (s.i + 1), i := j2 + 1 }
    else rstepLink links follow s
  else rstepLink links follow s

/-- Run the resolve_path loop for at most fuel iterations; none means the
fuel ran out (runResolve_total below shows enough fuel always exists). -/
def runResolve (links : SymTable) (follow : Bool) : Nat → RState → Option (FsPath × List FsPath)
  | 0, _ => none
  | n + 1, s =>
    match rstep links follow s with
    | .done b r => some (b, r)
    | .cont s2 => runResolve links follow n s2

/-- BxlObserver::resolve_path (lines 511-606): a non-absolute (or empty)
buffer is returned unchanged; otherwise the scan starts at index 1.
Returns the final buffer together with the readlink reports emitted. -/
def resolve_path (links : SymTable) (fullpath : FsPath) (follow : Bool) (fuel : Nat) :
    Option (FsPath × List FsPath) :=
  if fullpath.head? = some '/' then runResolve links follow fuel ⟨fullpath, 1, [], []⟩
  else some (fullpath, [])

/-- Number of symlink-table keys not yet in the visited set: the first
component of the termination measure for the resolve_path loop. -/
def unvisited (links : SymTable) (visited : List FsPath) : Nat :=
  ((links.map Prod.fst).filter (fun k => decide (k ∉ visited))).length

/-- Spec-level notion of an already-canonical absolute path: starts with a
slash, no trailing slash (the root "/" aside), and no empty, "." or ".."
segment anywhere. -/
abbrev CanonicalAbs (p : FsPath) : Prop :=
  p = ['/'] ∨
  (p.head? = some '/' ∧ p.getLast? ≠ some '/' ∧
   ∀ i, i < p.length → p[i]? = some '/' →
     (p[i + 1]? ≠ some '/' ∧
      ¬(p[i + 1]? = some '.' ∧
        (p[i + 2]? = none ∨ p[i + 2]? = some '/')) ∧
      ¬(p[i + 1]? = some '.' ∧ p[i + 2]? = some '.' ∧
        (p[i + 3]? = none ∨ p[i + 3]? = some '/'))))

/-- S_IFMT file-type mask and the file-type constants used via the
S_ISDIR/S_ISREG/S_ISLNK macros (Linux values, octal). -/
def S_IFMT : Nat := 0o170000

def S_IFDIR : Nat := 0o040000

def S_IFREG : Nat := 0o100000

def S_IFLNK : Nat := 0o120000

def S_IFIFO : Nat := 0o010000

def S_IFSOCK : Nat := 0o140000

def S_ISDIR (m : Nat) : Bool := m &&& S_IFMT == S_IFDIR

def S_ISREG (m : Nat) : Bool := m &&& S_IFMT == S_IFREG

def S_ISLNK (m : Nat) : Bool := m &&& S_IFMT == S_IFLNK

/-- BxlObserver::is_non_file (bxl_observer.cpp lines 318-322). -/
def is_non_file (mode : Nat) : Bool :=
  (mode != 0) && !(S_ISDIR mode) && !(S_ISREG mode) && !(S_ISLNK mode)

/-- The allow/deny decision of an access check (ResultAction). -/
inductive ResultAction where
  | Allow
  | Deny
deriving DecidableEq, Repr

/-- The result of an access check as consumed by this file: requested
access, decision, report level and the "checked" flag. -/
structure AccessCheckResult where
  requestedAccess : Nat
  action : ResultAction
  reportLevel : Nat
  checked : Bool
deriving DecidableEq, Repr

/-- Modelled from the spec: AccessCheckResult::Invalid(), the distinguished
"not checked" sentinel (its definition lives in a header outside src);
section 3 of the spec only requires it to be a distinguished value whose
checked flag is off. -/
def sNotChecked : AccessCheckResult := ⟨0, .Allow, 0, false⟩

/-- Modelled from the spec: the numeric value of RequestedAccess::Write
(the enum is defined outside src; only its identity matters here). -/
def RequestedAccess_Write : Nat := 2

/-- Modelled from the spec: the numeric value of ReportLevel::Report
(the enum is defined outside src; only its identity matters here). -/
def ReportLevel_Report : Nat := 1

/-- The file-operation tags of AccessReport that this file inspects:
the process-tree sentinel, the first-allow-write check, and a stand-in
for every other operation. -/
inductive FileOperation where
  | kOpProcessTreeCompleted
  | kOpFirstAllowWriteCheckInProcess
  | kOpGeneric
deriving DecidableEq, Repr

/-- FileAccessStatus values used by report_firstAllowWriteCheck. -/
inductive FileAccessStatus where
  | Allowed
  | Denied
deriving DecidableEq, Repr

/-- The AccessReport record serialized by SendReport (the fields that the
code reads or writes; stats is omitted, it is never serialized). -/
structure AccessReport where
  operation : FileOperation
  pid : Nat
  rootPid : Nat
  requestedAccess : Nat
  status : FileAccessStatus
  reportExplicitly : Nat
  error : Nat
  pipId : Nat
  path : FsPath
  isDirectory : Nat
deriving DecidableEq, Repr

/-- Decimal digits of a number, as printed by the %d conversion. -/
def natChars (n : Nat) : FsPath := (toString n).data

/-- Modelled from the spec: the numeric encoding of a FileOperation tag as
printed by %d (the enum values live outside src; only injectivity of the
wire field matters here). -/
def opCode : FileOperation → Nat
  | .kOpProcessTreeCompleted => 0
  | .kOpFirstAllowWriteCheckInProcess => 1
  | .kOpGeneric => 2

/-- Modelled from the spec: the numeric encoding of a FileAccessStatus as
printed by %d (the enum values live outside src). -/
def statusCode : FileAccessStatus → Nat
  | .Allowed => 1
  | .Denied => 2

/-- The full text that the snprintf of SendReport (lines 228-230) would
produce with an unbounded buffer:
progname|pid|requestedAccess|status|reportExplicitly|error|operation|path|isDirectory
followed by a newline. -/
def serializeReport (progname : FsPath) (pid : Nat) (r : AccessReport) : FsPath :=
  progname ++ '|' :: natChars pid ++ '|' :: natChars r.requestedAccess ++
  '|' :: natChars (statusCode r.status) ++ '|' :: natChars r.reportExplicitly ++
  '|' :: natChars r.error ++ '|' :: natChars (opCode r.operation) ++
  '|' :: r.path ++ '|' :: natChars r.isDirectory ++ ['\n']

/-- The guaranteed-atomic pipe write size on Linux. -/
def PIPE_BUF : Nat := 4096

/-- sizeof(uint), the length-prefix size of the wire format. -/
def PrefixLength : Nat := 4

/-- PIPE_BUF - PrefixLength, the room snprintf is given (line 227). -/
def maxMessageLength : Nat := PIPE_BUF - PrefixLength

/-- The value of an ssize_t read through the C comparison
`numWritten < bufsiz` against a size_t: the signed value converted to the
unsigned 64-bit type. -/
def usize (w : Int) : Nat := (w % (2 ^ 64)).toNat

/-- BxlObserver::Send (bxl_observer.cpp lines 180-214).  openFd is the
result of real_open on the reports path (-1 on failure) and writeRet the
result of real_write; the fd-table reset and close that follow a
successful write keep no observable state here.  On success the value is
the (length prefix, payload) message that reached the channel. -/
def Send (openFd : Int) (writeRet : Int) (prefixVal : Nat) (payload : FsPath) :
    Except String (Nat × FsPath) :=
  if PIPE_BUF < PrefixLength + payload.length then
    .error "Cannot atomically send a buffer whose size is greater than PIPE_BUF"
  else if openFd = -1 then
    .error "Could not open reports file"
  else if usize writeRet < PrefixLength + payload.length then
    .error "Wrote only part of the buffer"
  else
    .ok (prefixVal, payload)

/-- BxlObserver::SendReport (bxl_observer.cpp lines 216-240).  snprintf
returns the length the full text would need and materializes at most
maxMessageLength - 1 characters (the rest of the zero-initialized buffer
stays null); the 4-byte prefix is modeled as the number it encodes.
ok none means the report was dropped without any serialization or write;
ok (some m) means message m reached the channel. -/
def SendReport (progname : FsPath) (pid : Nat) (openFd writeRet : Int)
    (r : AccessReport) : Except String (Option (Nat × FsPath)) :=
  if r.operation = .kOpProcessTreeCompleted then
    .ok none
  else
    let msg := serializeReport progname pid r
    let numWritten := msg.length
    if numWritten = maxMessageLength then
      .error "Message truncated to fit PIPE_BUF"
    else
      let bufContent := msg.take (maxMessageLength - 1)
      let payload := bufContent ++ List.replicate (numWritten - bufContent.length) (Char.ofNat 0)
      match Send openFd writeRet numWritten payload with
      | .error e => .error e
      | .ok m => .ok (some m)

/-- BxlObserver::report_firstAllowWriteCheck (bxl_observer.cpp lines
368-395).  mode is the get_mode(fullPath) oracle answer (0 when the path
does not exist).  Returns the AccessReport handed unconditionally to
SendReport together with the AccessCheckResult returned to the caller.
The strlcpy truncation of the path into the fixed report.path array is
not modeled (the array size lives in a header outside src). -/
def report_firstAllowWriteCheck (pid rootPid pipId : Nat) (mode : Nat)
    (fullPath : FsPath) : AccessReport × AccessCheckResult :=
  let fileExists : Bool := (mode != 0) && !(S_ISDIR mode)
  let report : AccessReport :=
    { operation := .kOpFirstAllowWriteCheckInProcess
      pid := pid
      rootPid := rootPid
      requestedAccess := RequestedAccess_Write
      status := if fileExists then .Denied else .Allowed
      reportExplicitly := ReportLevel_Report
      error := 0
      pipId := pipId
      path := fullPath
      isDirectory := if S_ISDIR mode then 1 else 0 }
  (report, ⟨RequestedAccess_Write, if fileExists then .Deny else .Allow,
    ReportLevel_Report, true⟩)

/-- The IOEvent constructed by report_access (line 269): process ids, the
event type, the two paths, the acting executable path and the file mode. -/
structure IOEvent where
  pid : Nat
  ppid : Nat
  eventType : EsEvent
  srcPath : FsPath
  dstPath : FsPath
  execPath : FsPath
  mode : Nat
deriving DecidableEq, Repr

/-- The environment of one mediation call: the symlink table behind
real_readlink, the getcwd answer (and whether getcwd succeeds), the
fd_to_path and get_mode oracles by descriptor and by path, the process
identity, the IsEnabled flag, the cache-lock outcome, and the external
policy engine HandleEvent. -/
structure MedEnv where
  links : SymTable
  cwd : FsPath
  cwdOk : Bool
  fdPath : Int → FsPath
  fdMode : Int → Nat
  modeOf : FsPath → Nat
  progFullPath : FsPath
  pid : Nat
  ppid : Nat
  enabled : Bool
  lockAcquired : Bool
  handleEvent : IOEvent → AccessCheckResult

/-- The AT_FDCWD sentinel. -/
def AT_FDCWD : Int := -100

/-- O_NOFOLLOW on Linux (octal 0400000). -/
def O_NOFOLLOW : Nat := 0o400000

/-- The IOEvent overload of report_access (bxl_observer.cpp lines 273-296):
optionally re-check the cache, then consult the policy engine only when
mediation is enabled.  The middle component lists the events passed to
HandleEvent (empty when the policy engine is not invoked). -/
def report_access_ev (env : MedEnv) (cache : CacheState) (event : IOEvent)
    (checkCache : Bool) : AccessCheckResult × List IOEvent × CacheState :=
  let hc := if checkCache then
      IsCacheHit env.lockAcquired cache event.eventType event.srcPath event.dstPath
    else (false, cache)
  if hc.1 then (sNotChecked, [], hc.2)
  else if env.enabled then (env.handleEvent event, [event], hc.2)
  else (sNotChecked, [], hc.2)

/-- The string overload of report_access (bxl_observer.cpp lines 252-271):
check the cache, resolve the mode if still unknown, build the IOEvent
(the target path itself is the exec path for exec events) and delegate
with checkCache = false. -/
def report_access_str (env : MedEnv) (cache : CacheState) (eventType : EsEvent)
    (reportPath secondPath : FsPath) (mode : Nat) :
    AccessCheckResult × List IOEvent × CacheState :=
  let hc := IsCacheHit env.lockAcquired cache eventType reportPath secondPath
  if hc.1 then (sNotChecked, [], hc.2)
  else
    let mode2 := if mode = 0 then env.modeOf reportPath else mode
    let execPath := if eventType = .NOTIFY_EXEC then reportPath else env.progFullPath
    report_access_ev env hc.2 ⟨env.pid, env.ppid, eventType, reportPath, secondPath,
      execPath, mode2⟩ false

/-- BxlObserver::normalize_path_at (bxl_observer.cpp lines 443-494): a null
pathname reads the path of dirfd; a relative pathname is resolved against
getcwd (for AT_FDCWD) or fd_to_path(dirfd); then resolve_path runs with
followFinalSymlink = ((oflags & O_NOFOLLOW) == 0).  The fatal aborts on a
failed getcwd / empty descriptor path terminate the process and are not
modeled; none only reports exhausted fuel. -/
def normalize_path_at (env : MedEnv) (dirfd : Int) (pathname : Option FsPath)
    (oflags : Nat) (fuel : Nat) : Option FsPath :=
  match pathname with
  | none => some (env.fdPath dirfd)
  | some pn =>
    let fullpath :=
      if pn.head? ≠ some '/' then
        (if dirfd = AT_FDCWD then env.cwd else env.fdPath dirfd) ++ '/' :: pn
      else pn
    let followFinalSymlink := (oflags &&& O_NOFOLLOW) == 0
    (resolve_path env.links fullpath followFinalSymlink fuel).map Prod.fst

/-- Modelled from the spec: normalize_path(pathname, oflags) is declared in
the header outside src; per section 4.1 it normalizes against the current
working directory, i.e. it is normalize_path_at with the AT_FDCWD
sentinel. -/
def normalize_path (env : MedEnv) (pathname : FsPath) (oflags : Nat) (fuel : Nat) :
    Option FsPath :=
  normalize_path_at env AT_FDCWD (some pathname) oflags fuel

/-- The char* overload of report_access (bxl_observer.cpp lines 298-301):
its parameters are (pathname, mode, flags) in that order; it normalizes
the path with the flags and reports with the mode.  A none from the fuel
counter maps to the sentinel (unreachable for sufficient fuel, see
runResolve_total). -/
def report_access_char (env : MedEnv) (cache : CacheState) (eventType : EsEvent)
    (pathname : FsPath) (mode : Nat) (flags : Nat) (fuel : Nat) :
    AccessCheckResult × List IOEvent × CacheState :=
  match normalize_path env pathname flags fuel with
  | some np => report_access_str env cache eventType np [] mode
  | none => (sNotChecked, [], cache)

/-- BxlObserver::report_access_fd (bxl_observer.cpp lines 303-316):
non-file descriptors short-circuit with the sentinel, otherwise the
descriptor path is reported. -/
def report_access_fd (env : MedEnv) (cache : CacheState) (eventType : EsEvent)
    (fd : Int) : AccessCheckResult × List IOEvent × CacheState :=
  let mode := env.fdMode fd
  if is_non_file mode then (sNotChecked, [], cache)
  else report_access_str env cache eventType (env.fdPath fd) [] mode

/-- BxlObserver::report_access_at (bxl_observer.cpp lines 324-366).  An
absolute pathname delegates as report_access(syscall, event, pathname,
mode = 0, flags); a relative one is resolved against AT_FDCWD/getcwd or
the (file) descriptor path and then delegated through the call at line
365, report_access(syscallName, eventType, fullpath, flags, mode), whose
arguments land in the (pathname, mode, flags) parameters of the char*
overload in that order, so flags arrives in the mode parameter and mode
in the flags parameter.  The fatal abort on an empty directory path is
not modeled. -/
def report_access_at (env : MedEnv) (cache : CacheState) (eventType : EsEvent)
    (dirfd : Int) (pathname : FsPath) (flags : Nat) (fuel : Nat) :
    AccessCheckResult × List IOEvent × CacheState :=
  if pathname.head? = some '/' then
    report_access_char env cache eventType pathname 0 flags fuel
  else if dirfd = AT_FDCWD then
    if env.cwdOk = false then (sNotChecked, [], cache)
    else report_access_char env cache eventType (env.cwd ++ '/' :: pathname) flags 0 fuel
  else
    let mode := env.fdMode dirfd
    if is_non_file mode then (sNotChecked, [], cache)
    else report_access_char env cache eventType (env.fdPath dirfd ++ '/' :: pathname)
      flags mode fuel

-- ===================== theorems =====================

theorem get?_some_lt {α : Type} {l : List α} {i : Nat} {a : α}
    (h : l[i]? = some a) : i < l.length := by
  by_contra hh
  push_neg at hh
  rw [List.getElem?_eq_none_iff.mpr hh] at h
  cases h

theorem prevSlash_le (p : FsPath) : ∀ j : Nat, prevSlash p (j + 1) ≤ j := by
  intro j
  induction j with
  | zero =>
    unfold prevSlash
    split
    · exact Nat.le_refl 0
    · simp [prevSlash]
  | succ k ih =>
    unfold prevSlash
    split
    · exact Nat.le_refl _
    · exact Nat.le_trans ih (Nat.le_succ k)

theorem prevSlash_slash (p : FsPath) (h0 : p[0]? = some '/') :
    ∀ i : Nat, p[prevSlash p i]? = some '/' := by
  intro i
  induction i with
  | zero => simpa [prevSlash] using h0
  | succ j ih =>
    unfold prevSlash
    by_cases hj : p[j]? = some '/'
    · rw [if_pos hj]; exact hj
    · rw [if_neg hj]; exact ih

theorem lookupA_mem {α β : Type} [DecidableEq α] {k : α} {v : β} :
    ∀ {l : List (α × β)}, lookupA k l = some v → k ∈ l.map Prod.fst := by
  intro l
  induction l with
  | nil => intro h; simp [lookupA] at h
  | cons a l ih =>
    obtain ⟨a1, a2⟩ := a
    intro h
    by_cases hak : a1 = k
    · subst hak; simp
    · rw [lookupA, if_neg hak] at h
      exact List.mem_cons_of_mem _ (ih h)

theorem filter_length_mono {α : Type} (p q : α → Bool)
    (hpq : ∀ a, p a = true → q a = true) :
    ∀ l : List α, (l.filter p).length ≤ (l.filter q).length := by
  intro l
  induction l with
  | nil => simp
  | cons a l ih =>
    rw [List.filter_cons, List.filter_cons]
    by_cases hp : p a = true
    · rw [if_pos hp, if_pos (hpq a hp)]
      simpa using ih
    · rw [if_neg hp]
      by_cases hq : q a = true
      · rw [if_pos hq]
        exact Nat.le_trans ih (by simp)
      · rw [if_neg hq]
        exact ih

theorem unvisited_cons_lt (links : SymTable) (visited : List FsPath) (t : FsPath)
    (ht : t ∈ links.map Prod.fst) (hv : t ∉ visited) :
    unvisited links (t :: visited) < unvisited links visited := by
  unfold unvisited
  revert ht
  induction links.map Prod.fst with
  | nil => intro ht; cases ht
  | cons a l ih =>
    intro ht
    rw [List.filter_cons, List.filter_cons]
    have hmono := filter_length_mono (fun k => decide (k ∉ t :: visited))
      (fun k => decide (k ∉ visited))
      (by
        intro x hx
        simp only [decide_eq_true_eq] at hx ⊢
        intro hmem
        exact hx (List.mem_cons_of_mem _ hmem)) l
    by_cases hat : a = t
    · subst hat
      rw [if_neg (by simp), if_pos (by simpa using hv)]
      exact Nat.lt_succ_of_le hmono
    · have hiff : (a ∉ t :: visited) ↔ (a ∉ visited) := by
        constructor
        · intro hh hmem; exact hh (List.mem_cons_of_mem _ hmem)
        · intro hh hmem
          rcases List.mem_cons.mp hmem with h1 | h1
          · exact hat h1
          · exact hh h1
      have htl : t ∈ l := by
        rcases List.mem_cons.mp ht with h1 | h1
        · exact absurd h1.symm hat
        · exact h1
      by_cases ha : a ∉ visited
      · rw [if_pos (by simpa using hiff.mpr ha), if_pos (by simpa using ha)]
        simpa using ih htl
      · rw [if_neg (by simpa using fun hh => ha (hiff.mp hh)), if_neg (by simpa using ha)]
        exact ih htl

theorem rstepLink_cont_shape (links : SymTable) (follow : Bool) (s s2 : RState)
    (h : rstepLink links follow s = .cont s2) :
    unvisited links s2.visited < unvisited links s.visited ∨
    (s2 = { s with i := s.i + 1 } ∧ s.i < s.buf.length) := by
  simp only [rstepLink] at h
  split at h
  case h_1 _ heq =>
    split at h
    · cases h
    · cases h
      right
      refine ⟨rfl, ?_⟩
      rename_i hcn
      cases hg : s.buf[s.i]? with
      | none => exact absurd hg hcn
      | some a => exact get?_some_lt hg
  case h_2 target heq =>
    split at h
    · cases h
    · rename_i hmem
      have hlk : lookupA (s.buf.take s.i) links = some target := by
        by_cases hc : s.buf[s.i]? = some '/' ∨ (s.buf[s.i]? = none ∧ follow = true)
        · rwa [if_pos hc] at heq
        · rw [if_neg hc] at heq; cases heq
      have hkey := lookupA_mem hlk
      split at h <;> split at h <;>
      · cases h
        exact Or.inl (unvisited_cons_lt links s.visited _ hkey hmem)

theorem rstep_cont_measure (links : SymTable) (follow : Bool) (s s2 : RState)
    (h : rstep links follow s = .cont s2) :
    unvisited links s2.visited < unvisited links s.visited ∨
    (unvisited links s2.visited = unvisited links s.visited ∧
     2 * s2.buf.length - s2.i < 2 * s.buf.length - s.i) := by
  simp only [rstep] at h
  by_cases hc : s.buf[s.i]? = some '/'
  · rw [if_pos hc] at h
    have hilen : s.i < s.buf.length := get?_some_lt hc
    by_cases h0 : s.i - prevSlash s.buf s.i - 1 = 0
    · -- "//" collapse
      rw [if_pos h0] at h
      cases h
      right
      refine ⟨rfl, ?_⟩
      dsimp only
      simp only [List.length_append, List.length_take, List.length_drop]
      omega
    · rw [if_neg h0] at h
      by_cases h1 : s.i - prevSlash s.buf s.i - 1 = 1 ∧ s.buf[s.i - 1]? = some '.'
      · -- "/./" collapse
        rw [if_pos h1] at h
        cases h
        right
        refine ⟨rfl, ?_⟩
        obtain ⟨hlen1, _⟩ := h1
        dsimp only
        simp only [List.length_append, List.length_take, List.length_drop]
        omega
      · rw [if_neg h1] at h
        by_cases h2 : s.i - prevSlash s.buf s.i - 1 = 2 ∧
            s.buf[s.i - 1]? = some '.' ∧ s.buf[s.i - 2]? = some '.'
        · -- "/../" collapse
          rw [if_pos h2] at h
          cases h
          right
          refine ⟨rfl, ?_⟩
          obtain ⟨hlen2, _, _⟩ := h2
          have hj2 : (if 0 < prevSlash s.buf s.i then prevSlash s.buf (prevSlash s.buf s.i)
              else prevSlash s.buf s.i) ≤ prevSlash s.buf s.i := by
            split
            · rename_i hpos
              obtain ⟨j0, hj0⟩ : ∃ j0, prevSlash s.buf s.i = j0 + 1 :=
                ⟨prevSlash s.buf s.i - 1, by omega⟩
              rw [hj0]
              exact Nat.le_trans (prevSlash_le s.buf j0) (Nat.le_succ j0)
            · exact Nat.le_refl _
          dsimp only
          simp only [List.length_append, List.length_take, List.length_drop]
          omega
        · rw [if_neg h2] at h
          rcases rstepLink_cont_shape links follow s s2 h with hx | ⟨hx, hy⟩
          · exact Or.inl hx
          · subst hx
            right
            refine ⟨rfl, ?_⟩
            dsimp only
            omega
  · rw [if_neg hc] at h
    rcases rstepLink_cont_shape links follow s s2 h with hx | ⟨hx, hy⟩
    · exact Or.inl hx
    · subst hx
      right
      refine ⟨rfl, ?_⟩
      dsimp only
      omega

/-- The resolve_path loop terminates from every state: the visited set can
only grow within the finite symlink table, and between symlink expansions
every iteration strictly shrinks 2 * (buffer length) - (scan index). -/
theorem runResolve_total (links : SymTable) (follow : Bool) :
    ∀ s : RState, ∃ n r, runResolve links follow n s = some r := by
  have main : ∀ K, ∀ s : RState, unvisited links s.visited ≤ K →
      ∃ n r, runResolve links follow n s = some r := by
    intro K
    induction K using Nat.strong_induction_on with
    | _ K ihK =>
      have inner : ∀ M, ∀ s : RState, unvisited links s.visited ≤ K →
          2 * s.buf.length - s.i ≤ M → ∃ n r, runResolve links follow n s = some r := by
        intro M
        induction M using Nat.strong_induction_on with
        | _ M ihM =>
          intro s hK hM
          cases hstep : rstep links follow s with
          | done b r => exact ⟨1, (b, r), by simp [runResolve, hstep]⟩
          | cont s2 =>
            rcases rstep_cont_measure links follow s s2 hstep with hlt | ⟨heq, hlt2⟩
            · obtain ⟨n, r, hn⟩ := ihK (unvisited links s2.visited)
                (Nat.lt_of_lt_of_le hlt hK) s2 (Nat.le_refl _)
              exact ⟨n + 1, r, by simp [runResolve, hstep, hn]⟩
            · obtain ⟨n, r, hn⟩ := ihM (2 * s2.buf.length - s2.i)
                (Nat.lt_of_lt_of_le hlt2 hM) s2 (by omega) (Nat.le_refl _)
              exact ⟨n + 1, r, by simp [runResolve, hstep, hn]⟩
      intro s hK
      exact inner (2 * s.buf.length - s.i) s hK (Nat.le_refl _)
  intro s
  exact main (unvisited links s.visited) s (Nat.le_refl _)

/-- Claim C7: resolve_path terminates on every input over any finite symlink
table, and on the one-element cycle table (/x pointing to /x) the call
resolve("/x", follow_final_symlink = true) stops at the loop-detection break
after side-reporting exactly one readlink event, for /x. -/
theorem resolve_path_terminates :
    (∀ (links : SymTable) (p : FsPath) (follow : Bool),
       ∃ fuel r, resolve_path links p follow fuel = some r) ∧
    resolve_path [(['/', 'x'], ['/', 'x'])] ['/', 'x'] true 8 =
      some (['/', 'x'], [['/', 'x']]) := by
  constructor
  · intro links p follow
    by_cases hp : p.head? = some '/'
    · obtain ⟨n, r, hn⟩ := runResolve_total links follow ⟨p, 1, [], []⟩
      exact ⟨n, r, by simp [resolve_path, hp, hn]⟩
    · exact ⟨0, (p, []), by simp [resolve_path, hp]⟩
  · decide

theorem head?_slash_length_pos {p : FsPath} (h : p.head? = some '/') : 0 < p.length := by
  cases p with
  | nil => cases h
  | cons a l => simp

/-- With an empty symlink table, on a canonical path every iteration of the
resolve_path loop just advances the scan index (or stops at the end),
leaving the buffer untouched. -/
theorem rstep_scan (p : FsPath) (hcanon : CanonicalAbs p) (follow : Bool)
    (v r : List FsPath) (i : Nat) (hi : 1 ≤ i) :
    rstep [] follow ⟨p, i, v, r⟩ =
      if p.length ≤ i then .done p r else .cont ⟨p, i + 1, v, r⟩ := by
  have h0 : p[0]? = some '/' := by
    rcases hcanon with hroot | ⟨hh, _, _⟩
    · rw [hroot]; rfl
    · cases p with
      | nil => cases hh
      | cons a l => simpa using hh
  have hlinkNone : ∀ q : FsPath, lookupA q ([] : SymTable) = none := fun q => rfl
  by_cases hilen : p.length ≤ i
  · have hc : p[i]? = none := List.getElem?_eq_none_iff.mpr hilen
    rw [if_pos hilen]
    rw [rstep, if_neg (by simp [hc])]
    rw [rstepLink]
    cases follow with
    | true => simp [hc, hlinkNone]
    | false => simp [hc]
  · rw [if_neg hilen]
    push_neg at hilen
    by_cases hc : p[i]? = some '/'
    · rcases hcanon with hroot | ⟨hh, hlast, hseg⟩
      · exfalso
        subst hroot
        have : i < 1 := hilen
        omega
      · obtain ⟨k, rfl⟩ : ∃ k, i = k + 1 := ⟨i - 1, by omega⟩
        have hjle : prevSlash p (k + 1) ≤ k := prevSlash_le p k
        have hjs : p[prevSlash p (k + 1)]? = some '/' := prevSlash_slash p h0 (k + 1)
        have hb0 : ¬(k + 1 - prevSlash p (k + 1) - 1 = 0) := by
          intro hx
          have hji : prevSlash p (k + 1) = k := by omega
          have := (hseg k (by omega) (hji ▸ hjs)).1
          exact this (by simpa using hc)
        have hb1 : ¬(k + 1 - prevSlash p (k + 1) - 1 = 1 ∧ p[k + 1 - 1]? = some '.') := by
          rintro ⟨hx, hdot⟩
          have hji : prevSlash p (k + 1) = k - 1 := by omega
          have hk1 : 1 ≤ k := by omega
          have hs2 := hseg (k - 1) (by omega) (hji ▸ hjs)
          refine hs2.2.1 ⟨?_, Or.inr ?_⟩
          · rw [show k - 1 + 1 = k by omega]
            simpa using hdot
          · rw [show k - 1 + 2 = k + 1 by omega]
            exact hc
        have hb2 : ¬(k + 1 - prevSlash p (k + 1) - 1 = 2 ∧ p[k + 1 - 1]? = some '.' ∧
            p[k + 1 - 2]? = some '.') := by
          rintro ⟨hx, hdot1, hdot2⟩
          have hji : prevSlash p (k + 1) = k - 2 := by omega
          have hk2 : 2 ≤ k := by omega
          have hs3 := hseg (k - 2) (by omega) (hji ▸ hjs)
          refine hs3.2.2 ⟨?_, ?_, Or.inr ?_⟩
          · rw [show k - 2 + 1 = k - 1 by omega]
            simpa using hdot2
          · rw [show k - 2 + 2 = k by omega]
            simpa using hdot1
          · rw [show k - 2 + 3 = k + 1 by omega]
            exact hc
        rw [rstep]
        rw [if_pos (by simpa using hc)]
        dsimp only
        rw [if_neg (by simpa using hb0), if_neg (by simpa using hb1),
          if_neg (by simpa using hb2)]
        rw [rstepLink]
        have hcn : p[k + 1]? ≠ none := by
          intro hx
          have := List.getElem?_eq_none_iff.mp hx
          omega
        simp [hc, hlinkNone, hcn]
    · rw [rstep, if_neg (by simpa using hc)]
      rw [rstepLink]
      have hcn : p[i]? ≠ none := by
        intro hx
        have := List.getElem?_eq_none_iff.mp hx
        omega
      simp [hc, hcn]

/-- With no symlinks, running the loop from index i on a canonical path
returns the buffer unchanged. -/
theorem runResolve_noop (p : FsPath) (hcanon : CanonicalAbs p) (follow : Bool) :
    ∀ (M i : Nat) (v r : List FsPath), 1 ≤ i → p.length ≤ i + M →
      runResolve [] follow (M + 1) ⟨p, i, v, r⟩ = some (p, r) := by
  intro M
  induction M with
  | zero =>
    intro i v r hi hlen
    have hs := rstep_scan p hcanon follow v r i hi
    rw [if_pos (by omega)] at hs
    simp [runResolve, hs]
  | succ M ih =>
    intro i v r hi hlen
    have hs := rstep_scan p hcanon follow v r i hi
    by_cases hle : p.length ≤ i
    · rw [if_pos hle] at hs
      simp [runResolve, hs]
    · rw [if_neg hle] at hs
      have hstep : runResolve [] follow (M + 1 + 1) ⟨p, i, v, r⟩ =
          runResolve [] follow (M + 1) ⟨p, i + 1, v, r⟩ := by
        simp [runResolve, hs]
      rw [hstep]
      exact ih (i + 1) v r (by omega) (by omega)

/-- Claim C8 (amended): with no symlinks involved, resolve_path collapses
interior dot segments and double slashes in place, as in the two spec
examples, and is a byte-for-byte no-op on every already-canonical absolute
path; a trailing "." or ".." component (one not followed by a further
slash) is left in place, see resolve_path_trailing_dotdot. -/
theorem resolve_path_canonical_noop :
    (∀ follow : Bool,
       resolve_path [] ['/', 'a', '/', '.', '/', 'b', '/', '.', '.', '/', 'c'] follow 40 =
         some (['/', 'a', '/', 'c'], [])) ∧
    (∀ follow : Bool,
       resolve_path [] ['/', 'a', '/', '/', 'b'] follow 20 =
         some (['/', 'a', '/', 'b'], [])) ∧
    (∀ (p : FsPath) (follow : Bool), CanonicalAbs p →
       resolve_path [] p follow p.length = some (p, [])) := by
  refine ⟨?_, ?_, ?_⟩
  · intro follow; cases follow <;> decide
  · intro follow; cases follow <;> decide
  · intro p follow hcanon
    have hhead : p.head? = some '/' := by
      rcases hcanon with hroot | ⟨hh, _, _⟩
      · rw [hroot]; rfl
      · exact hh
    have hpos : 0 < p.length := head?_slash_length_pos hhead
    rw [resolve_path, if_pos hhead]
    have := runResolve_noop p hcanon follow (p.length - 1) 1 [] [] (Nat.le_refl 1) (by omega)
    rwa [show p.length - 1 + 1 = p.length by omega] at this

theorem resolve_path_canonical_noop_witness :
    CanonicalAbs ['/', 'a', '/', 'c'] ∧
    resolve_path [] ['/', 'a', '/', 'c'] true (['/', 'a', '/', 'c'] : FsPath).length =
      some (['/', 'a', '/', 'c'], []) :=
  ⟨by decide, resolve_path_canonical_noop.2.2 ['/', 'a', '/', 'c'] true (by decide)⟩

/-- Claim C8 is refuted as stated: "/a/.." is a symlink-free absolute path,
yet resolve_path leaves it untouched rather than rewriting it to its
dot-dot-free canonical form "/" (trailing dot segments are only collapsed
when followed by a slash). -/
theorem resolve_path_trailing_dotdot :
    resolve_path [] ['/', 'a', '/', '.', '.'] true 10 =
      some (['/', 'a', '/', '.', '.'], []) ∧
    ¬ CanonicalAbs ['/', 'a', '/', '.', '.'] :=
  ⟨by decide, by decide⟩


theorem lookupA_append_of_none {α β : Type} [DecidableEq α] {k : α}
    {l₁ l₂ : List (α × β)} (h : lookupA k l₁ = none) :
    lookupA k (l₁ ++ l₂) = lookupA k l₂ := by
  induction l₁ with
  | nil => simp
  | cons a l ih =>
    obtain ⟨a1, a2⟩ := a
    by_cases hak : a1 = k
    · rw [lookupA, if_pos hak] at h; exact absurd h (by simp)
    · rw [lookupA, if_neg hak] at h
      simpa [lookupA, hak] using ih h

theorem lookupA_append_of_some {α β : Type} [DecidableEq α] {k : α} {v : β}
    {l₁ l₂ : List (α × β)} (h : lookupA k l₁ = some v) :
    lookupA k (l₁ ++ l₂) = some v := by
  induction l₁ with
  | nil => simp [lookupA] at h
  | cons a l ih =>
    obtain ⟨a1, a2⟩ := a
    by_cases hak : a1 = k
    · rw [lookupA, if_pos hak] at h
      simpa [lookupA, hak] using h
    · rw [lookupA, if_neg hak] at h
      simpa [lookupA, hak] using ih h

theorem lookupA_updateA_self {α β : Type} [DecidableEq α] {k : α} {v : β}
    {l : List (α × β)} (w : β) (h : lookupA k l = some v) :
    lookupA k (updateA k w l) = some w := by
  induction l with
  | nil => simp [lookupA] at h
  | cons a l ih =>
    obtain ⟨a1, a2⟩ := a
    by_cases hak : a1 = k
    · simp [lookupA, updateA, hak]
    · rw [lookupA, if_neg hak] at h
      simpa [lookupA, updateA, hak] using ih h

theorem lookupA_updateA_ne {α β : Type} [DecidableEq α] {k k2 : α} (v : β)
    (l : List (α × β)) (h : k2 ≠ k) :
    lookupA k2 (updateA k v l) = lookupA k2 l := by
  induction l with
  | nil => simp [updateA]
  | cons a l ih =>
    obtain ⟨a1, a2⟩ := a
    by_cases hak : a1 = k
    · subst hak
      have hne : a1 ≠ k2 := fun hh => h hh.symm
      simp [lookupA, updateA, hne]
    · simp only [updateA, if_neg hak]
      by_cases hak2 : a1 = k2
      · simp [lookupA, hak2]
      · simpa [lookupA, hak2] using ih

theorem setInsert_mem_self (set : List FsPath) (p : FsPath) :
    p ∈ (setInsert set p).2 := by
  unfold setInsert
  by_cases hp : p ∈ set
  · simp [hp]
  · simp [hp]

theorem setInsert_mem_mono (set : List FsPath) (p q : FsPath) (h : q ∈ set) :
    q ∈ (setInsert set p).2 := by
  unfold setInsert
  by_cases hp : p ∈ set
  · simpa [hp]
  · simp [hp, h]

/-- Membership in the cache only ever grows across an IsCacheHit call. -/
theorem isCacheHit_mem_mono (lockAcquired : Bool) (s : CacheState) (e : EsEvent)
    (p sp : FsPath) (k : EsEvent) (q : FsPath) (h : cacheMem s k q = true) :
    cacheMem (IsCacheHit lockAcquired s e p sp).2 k q = true := by
  unfold IsCacheHit
  by_cases h1 : s.disposed = true ∨ 0 < sp.length ∨
      e = .NOTIFY_FORK ∨ e = .NOTIFY_EXEC ∨ e = .NOTIFY_EXIT
  · rwa [if_pos h1]
  · rw [if_neg h1]
    by_cases hl : lockAcquired = false
    · rwa [if_pos hl]
    · rw [if_neg hl]
      unfold cacheMem at h
      cases hq : lookupA k s.cache with
      | none => rw [hq] at h; simp at h
      | some setk =>
        rw [hq] at h
        cases hkey : lookupA (coalesce e) s.cache with
        | none =>
          unfold cacheMem
          rw [lookupA_append_of_some hq]
          exact h
        | some sete =>
          by_cases hkk : k = coalesce e
          · subst hkk
            rw [hq] at hkey
            cases hkey
            unfold cacheMem
            rw [lookupA_updateA_self _ hq]
            simp only [decide_eq_true_eq] at h ⊢
            exact setInsert_mem_mono _ _ _ h
          · unfold cacheMem
            rw [lookupA_updateA_ne _ _ hkk, hq]
            exact h

/-- Claim C5: IsCacheHit returns false and leaves the cache state untouched
whenever the observer is disposed, the secondary path is non-empty, the
event kind is fork, exec or exit, or the cache lock could not be acquired
within the short timeout (bxl_observer.cpp lines 117-124 and 158-161); in
particular a disposed observer never reads or writes the cache map. -/
theorem isCacheHit_no_mutation (lockAcquired : Bool) (s : CacheState) (e : EsEvent)
    (p sp : FsPath)
    (h : s.disposed = true ∨ sp ≠ [] ∨ e = .NOTIFY_FORK ∨ e = .NOTIFY_EXEC ∨
         e = .NOTIFY_EXIT ∨ lockAcquired = false) :
    IsCacheHit lockAcquired s e p sp = (false, s) := by
  unfold IsCacheHit
  by_cases h1 : s.disposed = true ∨ 0 < sp.length ∨
      e = .NOTIFY_FORK ∨ e = .NOTIFY_EXEC ∨ e = .NOTIFY_EXIT
  · rw [if_pos h1]
  · rw [if_neg h1]
    have hl : lockAcquired = false := by
      rcases h with h | h | h | h | h | h
      · exact absurd (Or.inl h) h1
      · exact absurd (Or.inr (Or.inl (List.length_pos.mpr h))) h1
      · exact absurd (Or.inr (Or.inr (Or.inl h))) h1
      · exact absurd (Or.inr (Or.inr (Or.inr (Or.inl h)))) h1
      · exact absurd (Or.inr (Or.inr (Or.inr (Or.inr h)))) h1
      · exact h
    rw [if_pos hl]

theorem isCacheHit_no_mutation_witness :
    IsCacheHit true ⟨true, []⟩ .NOTIFY_STAT ['/', 'p'] [] = (false, ⟨true, []⟩) :=
  isCacheHit_no_mutation true ⟨true, []⟩ .NOTIFY_STAT ['/', 'p'] [] (Or.inl rfl)

/-- Claim C6: on a non-disposed cache whose lock is acquired, with an empty
secondary path and a kind other than fork/exec/exit, IsCacheHit returns
true exactly when the pair (coalesced key, path) was already recorded; the
call records the pair, recorded pairs survive every later call, and any
later call with the same pair on a non-disposed state returns true. -/
theorem isCacheHit_duplicate_detection (s : CacheState) (e : EsEvent) (p : FsPath)
    (hd : s.disposed = false)
    (h1 : e ≠ .NOTIFY_FORK) (h2 : e ≠ .NOTIFY_EXEC) (h3 : e ≠ .NOTIFY_EXIT) :
    (IsCacheHit true s e p []).1 = cacheMem s (coalesce e) p ∧
    cacheMem (IsCacheHit true s e p []).2 (coalesce e) p = true ∧
    (∀ (lock : Bool) (s2 : CacheState) (e2 : EsEvent) (p2 sp2 : FsPath),
      cacheMem s2 (coalesce e) p = true →
      cacheMem (IsCacheHit lock s2 e2 p2 sp2).2 (coalesce e) p = true) ∧
    (∀ s2 : CacheState, s2.disposed = false → cacheMem s2 (coalesce e) p = true →
      (IsCacheHit true s2 e p []).1 = true) := by
  have hcond : ∀ s3 : CacheState, s3.disposed = false →
      ¬(s3.disposed = true ∨ 0 < ([] : FsPath).length ∨
        e = .NOTIFY_FORK ∨ e = .NOTIFY_EXEC ∨ e = .NOTIFY_EXIT) := by
    intro s3 hd3
    simp [hd3, h1, h2, h3]
  refine ⟨?_, ?_, ?_, ?_⟩
  · unfold IsCacheHit
    rw [if_neg (hcond s hd), if_neg (by simp)]
    cases hk : lookupA (coalesce e) s.cache with
    | none => simp [cacheMem, hk]
    | some set =>
      simp only [cacheMem, hk, setInsert]
      by_cases hp : p ∈ set
      · simp [hp]
      · simp [hp]
  · unfold IsCacheHit
    rw [if_neg (hcond s hd), if_neg (by simp)]
    cases hk : lookupA (coalesce e) s.cache with
    | none =>
      simp only [cacheMem]
      rw [lookupA_append_of_none hk]
      simp [lookupA]
    | some set =>
      simp only [cacheMem]
      rw [lookupA_updateA_self _ hk]
      simpa using setInsert_mem_self set p
  · intro lock s2 e2 p2 sp2 hmem
    exact isCacheHit_mem_mono lock s2 e2 p2 sp2 (coalesce e) p hmem
  · intro s2 hd2 hmem
    unfold IsCacheHit
    rw [if_neg (hcond s2 hd2), if_neg (by simp)]
    unfold cacheMem at hmem
    cases hk : lookupA (coalesce e) s2.cache with
    | none => rw [hk] at hmem; simp at hmem
    | some set =>
      rw [hk] at hmem
      simp only [decide_eq_true_eq] at hmem
      simp [setInsert, hmem]

theorem isCacheHit_duplicate_detection_witness :
    (IsCacheHit true ⟨false, []⟩ .NOTIFY_STAT ['/', 'p'] []).1 =
      cacheMem ⟨false, []⟩ (coalesce .NOTIFY_STAT) ['/', 'p'] ∧
    cacheMem (IsCacheHit true ⟨false, []⟩ .NOTIFY_STAT ['/', 'p'] []).2
      (coalesce .NOTIFY_STAT) ['/', 'p'] = true ∧
    (∀ (lock : Bool) (s2 : CacheState) (e2 : EsEvent) (p2 sp2 : FsPath),
      cacheMem s2 (coalesce .NOTIFY_STAT) ['/', 'p'] = true →
      cacheMem (IsCacheHit lock s2 e2 p2 sp2).2 (coalesce .NOTIFY_STAT) ['/', 'p'] = true) ∧
    (∀ s2 : CacheState, s2.disposed = false →
      cacheMem s2 (coalesce .NOTIFY_STAT) ['/', 'p'] = true →
      (IsCacheHit true s2 .NOTIFY_STAT ['/', 'p'] []).1 = true) :=
  isCacheHit_duplicate_detection ⟨false, []⟩ .NOTIFY_STAT ['/', 'p'] rfl
    (by decide) (by decide) (by decide)

/-- Claim C1 is refuted by the code: the missing break after the read-class
case lands on the default label, so GETATTRLIST keys on itself rather than
on NOTIFY_STAT, and recording a GETATTRLIST for /p does not make a later
STAT for /p a cache hit (they do not share a deduplication entry). -/
theorem coalesce_read_class_fallthrough :
    coalesce .NOTIFY_GETATTRLIST = .NOTIFY_GETATTRLIST ∧
    coalesce .NOTIFY_GETATTRLIST ≠ .NOTIFY_STAT ∧
    (IsCacheHit true ⟨false, []⟩ .NOTIFY_GETATTRLIST ['/', 'p'] []).1 = false ∧
    (IsCacheHit true (IsCacheHit true ⟨false, []⟩ .NOTIFY_GETATTRLIST ['/', 'p'] []).2
      .NOTIFY_STAT ['/', 'p'] []).1 = false := by
  decide

/-- Claim C10: an access report whose operation is kOpProcessTreeCompleted
is dropped by SendReport immediately: success is returned and nothing is
serialized or written to the channel. -/
theorem sendReport_processTree_no_write (pn : FsPath) (pid : Nat) (ofd w : Int)
    (r : AccessReport) (h : r.operation = .kOpProcessTreeCompleted) :
    SendReport pn pid ofd w r = .ok none := by
  unfold SendReport
  rw [if_pos h]

theorem sendReport_processTree_no_write_witness :
    SendReport ['p'] 1 0 0
      ⟨.kOpProcessTreeCompleted, 1, 1, 1, .Allowed, 1, 0, 1, ['/', 'q'], 0⟩ = .ok none :=
  sendReport_processTree_no_write ['p'] 1 0 0
    ⟨.kOpProcessTreeCompleted, 1, 1, 1, .Allowed, 1, 0, 1, ['/', 'q'], 0⟩ rfl

/-- Claim C2 is refuted as stated: for a path that exists as a directory
(mode 0o40755 = 16877, so the path exists: get_mode is non-zero), the
decision returned by report_firstAllowWriteCheck is Allow, not Deny,
because the code requires the existing node to be a non-directory. -/
theorem firstAllowWrite_existing_directory_allowed :
    (16877 : Nat) ≠ 0 ∧
    (report_firstAllowWriteCheck 1 1 1 16877 ['/', 'd']).2.action = .Allow ∧
    (report_firstAllowWriteCheck 1 1 1 16877 ['/', 'd']).1.status = .Allowed := by
  decide

/-- Claim C2 (amended): report_firstAllowWriteCheck computes existence from
the mode oracle, unconditionally produces its synthetic first-allow-write
report (whose operation is never the dropped process-tree sentinel, so
SendReport really writes it; no AccessCache state is consulted), and
returns Deny exactly when the path exists as a non-directory; an existing
directory yields Allow. -/
theorem firstAllowWrite_spec (pid rootPid pipId mode : Nat) (fullPath : FsPath) :
    (report_firstAllowWriteCheck pid rootPid pipId mode fullPath).2.action =
      (if mode ≠ 0 ∧ S_ISDIR mode = false then ResultAction.Deny else ResultAction.Allow) ∧
    (report_firstAllowWriteCheck pid rootPid pipId mode fullPath).1.status =
      (if mode ≠ 0 ∧ S_ISDIR mode = false then FileAccessStatus.Denied
       else FileAccessStatus.Allowed) ∧
    (report_firstAllowWriteCheck pid rootPid pipId mode fullPath).1.operation =
      .kOpFirstAllowWriteCheckInProcess ∧
    (report_firstAllowWriteCheck pid rootPid pipId mode fullPath).1.operation ≠
      .kOpProcessTreeCompleted ∧
    (report_firstAllowWriteCheck pid rootPid pipId mode fullPath).1.path = fullPath ∧
    (report_firstAllowWriteCheck pid rootPid pipId mode fullPath).2.requestedAccess =
      RequestedAccess_Write ∧
    (report_firstAllowWriteCheck pid rootPid pipId mode fullPath).2.checked = true := by
  unfold report_firstAllowWriteCheck
  by_cases h0 : mode = 0
  · subst h0
    simp [S_ISDIR, S_IFMT, S_IFDIR]
  · by_cases hd : S_ISDIR mode = true
    · simp [h0, hd]
    · simp only [Bool.not_eq_true] at hd
      simp [h0, hd]

/-- Claim C9: report_access_fd on a descriptor whose mode is a real file
mode (non-zero) that is neither a regular file, a directory nor a symlink
returns the not-checked sentinel, leaves the cache alone, and never hands
an event to the policy engine. -/
theorem report_access_fd_non_file (env : MedEnv) (cache : CacheState)
    (et : EsEvent) (fd : Int) (h0 : env.fdMode fd ≠ 0)
    (h1 : S_ISDIR (env.fdMode fd) = false) (h2 : S_ISREG (env.fdMode fd) = false)
    (h3 : S_ISLNK (env.fdMode fd) = false) :
    report_access_fd env cache et fd = (sNotChecked, [], cache) := by
  unfold report_access_fd
  have hnf : is_non_file (env.fdMode fd) = true := by
    unfold is_non_file
    simp [h0, h1, h2, h3]
  simp [hnf]

theorem report_access_fd_non_file_witness :
    report_access_fd
      { links := [], cwd := [], cwdOk := true, fdPath := fun _ => ['/', 'f'],
        fdMode := fun _ => 4096, modeOf := fun _ => 0, progFullPath := ['/', 'e'],
        pid := 1, ppid := 0, enabled := true, lockAcquired := true,
        handleEvent := fun _ => sNotChecked }
      ⟨false, []⟩ .NOTIFY_OPEN 3 = (sNotChecked, [], ⟨false, []⟩) :=
  report_access_fd_non_file _ _ _ _ (by decide) (by decide) (by decide) (by decide)

/-- Claim C3 is refuted by the code at the relative branch of
report_access_at: with dirfd 5 naming directory /d (mode 0o40000 = 16384),
pathname "s", flags = O_NOFOLLOW, and /d/s a symlink to /t, the call at
line 365 passes flags into the mode parameter and mode into the flags
parameter of the char* overload, so follow_final_symlink is computed from
the directory mode (true) instead of from flags (false): the event handed
to the policy engine carries the resolved target /t, while
normalize_path_at itself, which honors O_NOFOLLOW, stops at /d/s. -/
theorem report_access_at_nofollow_ignored :
    ((report_access_at
        { links := [(['/', 'd', '/', 's'], ['/', 't'])], cwd := ['/', 'w'], cwdOk := true,
          fdPath := fun _ => ['/', 'd'], fdMode := fun _ => 16384,
          modeOf := fun _ => 0, progFullPath := ['/', 'e'], pid := 1, ppid := 0,
          enabled := true, lockAcquired := true,
          handleEvent := fun _ => ⟨2, .Allow, 1, true⟩ }
        ⟨false, []⟩ .NOTIFY_OPEN 5 ['s'] O_NOFOLLOW 20).2.1.map
      (fun e => e.srcPath) = [['/', 't']]) ∧
    normalize_path_at
        { links := [(['/', 'd', '/', 's'], ['/', 't'])], cwd := ['/', 'w'], cwdOk := true,
          fdPath := fun _ => ['/', 'd'], fdMode := fun _ => 16384,
          modeOf := fun _ => 0, progFullPath := ['/', 'e'], pid := 1, ppid := 0,
          enabled := true, lockAcquired := true,
          handleEvent := fun _ => ⟨2, .Allow, 1, true⟩ }
        5 (some ['s']) O_NOFOLLOW 20 = some ['/', 'd', '/', 's'] ∧
    (['/', 't'] : FsPath) ≠ ['/', 'd', '/', 's'] := by
  refine ⟨by decide, by decide, by decide⟩

theorem sendReport_payload_length (pn : FsPath) (pid : Nat) (r : AccessReport) :
    ((serializeReport pn pid r).take (maxMessageLength - 1) ++
      List.replicate ((serializeReport pn pid r).length -
        ((serializeReport pn pid r).take (maxMessageLength - 1)).length)
      (Char.ofNat 0)).length = (serializeReport pn pid r).length := by
  rw [List.length_append, List.length_replicate, List.length_take]
  omega

/-- Claim C4: a report whose serialized text needs at least
maxMessageLength = PIPE_BUF - 4 characters makes SendReport fail fatally
(either at the snprintf-truncation check or at the PIPE_BUF bound inside
Send); any message that does reach the channel is the full untruncated
serialization with the matching length prefix; and a channel write that
completes with fewer bytes than requested makes Send fail fatally. -/
theorem sendReport_atomic_bound :
    (∀ (pn : FsPath) (pid : Nat) (ofd w : Int) (r : AccessReport),
       r.operation ≠ .kOpProcessTreeCompleted →
       maxMessageLength ≤ (serializeReport pn pid r).length →
       ∃ e, SendReport pn pid ofd w r = .error e) ∧
    (∀ (pn : FsPath) (pid : Nat) (ofd w : Int) (r : AccessReport) (pv : Nat) (pl : FsPath),
       SendReport pn pid ofd w r = .ok (some (pv, pl)) →
       pl = serializeReport pn pid r ∧ pv = (serializeReport pn pid r).length) ∧
    (∀ (ofd w : Int) (pv : Nat) (pl : FsPath), 0 ≤ w →
       w < PrefixLength + pl.length → ∃ e, Send ofd w pv pl = .error e) := by
  refine ⟨?_, ?_, ?_⟩
  · intro pn pid ofd w r hop hlen
    simp only [SendReport]
    rw [if_neg hop]
    by_cases hnw : (serializeReport pn pid r).length = maxMessageLength
    · rw [if_pos hnw]
      exact ⟨_, rfl⟩
    · rw [if_neg hnw]
      have hsend : Send ofd w (serializeReport pn pid r).length
          ((serializeReport pn pid r).take (maxMessageLength - 1) ++
            List.replicate ((serializeReport pn pid r).length -
              ((serializeReport pn pid r).take (maxMessageLength - 1)).length)
            (Char.ofNat 0)) =
          .error "Cannot atomically send a buffer whose size is greater than PIPE_BUF" := by
        simp only [Send]
        rw [if_pos ?cond]
        case cond =>
          rw [sendReport_payload_length]
          have h1 : maxMessageLength = 4092 := rfl
          have h2 : PIPE_BUF = 4096 := rfl
          have h3 : PrefixLength = 4 := rfl
          omega
      rw [hsend]
      exact ⟨_, rfl⟩
  · intro pn pid ofd w r pv pl h
    simp only [SendReport] at h
    split at h
    · simp at h
    · split at h
      · cases h
      · rename_i hop hnw
        cases hsend : Send ofd w (serializeReport pn pid r).length
            ((serializeReport pn pid r).take (maxMessageLength - 1) ++
              List.replicate ((serializeReport pn pid r).length -
                ((serializeReport pn pid r).take (maxMessageLength - 1)).length)
              (Char.ofNat 0)) with
        | error e =>
          rw [hsend] at h
          cases h
        | ok m =>
          rw [hsend] at h
          simp only [Except.ok.injEq, Option.some.injEq] at h
          subst h
          simp only [Send] at hsend
          split at hsend
          · cases hsend
          · split at hsend
            · cases hsend
            · split at hsend
              · cases hsend
              · rename_i hbound hofd hwrote
                simp only [Except.ok.injEq] at hsend
                rw [sendReport_payload_length] at hbound
                have h1 : maxMessageLength = 4092 := rfl
                have h2 : PIPE_BUF = 4096 := rfl
                have h3 : PrefixLength = 4 := rfl
                have hsmall : (serializeReport pn pid r).length ≤ maxMessageLength - 1 := by
                  omega
                have htake : (serializeReport pn pid r).take (maxMessageLength - 1) =
                    serializeReport pn pid r := List.take_of_length_le hsmall
                rw [htake] at hsend
                have hrep : (serializeReport pn pid r).length -
                    (serializeReport pn pid r).length = 0 := by omega
                rw [hrep] at hsend
                simp only [List.replicate_zero, List.append_nil] at hsend
                obtain ⟨h4, h5⟩ := Prod.mk.injEq .. ▸ hsend.symm
                exact ⟨by rw [← h5], by rw [← h4]⟩
  · intro ofd w pv pl h0 hw
    simp only [Send]
    by_cases hb : PIPE_BUF < PrefixLength + pl.length
    · rw [if_pos hb]
      exact ⟨_, rfl⟩
    · rw [if_neg hb]
      by_cases ho : ofd = -1
      · rw [if_pos ho]
        exact ⟨_, rfl⟩
      · rw [if_neg ho]
        have husize : usize w < PrefixLength + pl.length := by
          unfold usize
          have h2 : PIPE_BUF = 4096 := rfl
          have h3 : PrefixLength = 4 := rfl
          omega
        rw [if_pos husize]
        exact ⟨_, rfl⟩

theorem serializeReport_path_le (pn : FsPath) (pid : Nat) (r : AccessReport) :
    r.path.length ≤ (serializeReport pn pid r).length := by
  simp only [serializeReport, List.length_append, List.length_cons]
  omega

theorem sendReport_atomic_bound_witness :
    (∃ e, SendReport ['p'] 1 0 9999
      ⟨.kOpGeneric, 1, 1, 1, .Allowed, 1, 0, 1, List.replicate 4200 'a', 0⟩ = .error e) ∧
    ((['p', '|', '1', '|', '1', '|', '1', '|', '1', '|', '0', '|', '2', '|', 'q', '|',
        '0', '\n'] : FsPath) =
      serializeReport ['p'] 1 ⟨.kOpGeneric, 1, 1, 1, .Allowed, 1, 0, 1, ['q'], 0⟩ ∧
      18 = (serializeReport ['p'] 1
        ⟨.kOpGeneric, 1, 1, 1, .Allowed, 1, 0, 1, ['q'], 0⟩).length) ∧
    (∃ e, Send 0 3 7 ['a'] = .error e) :=
  ⟨sendReport_atomic_bound.1 ['p'] 1 0 9999
      ⟨.kOpGeneric, 1, 1, 1, .Allowed, 1, 0, 1, List.replicate 4200 'a', 0⟩
      (by decide)
      (by
        have h := serializeReport_path_le ['p'] 1
          ⟨.kOpGeneric, 1, 1, 1, .Allowed, 1, 0, 1, List.replicate 4200 'a', 0⟩
        simp only [List.length_replicate] at h
        have hm : maxMessageLength = 4092 := rfl
        omega),
   sendReport_atomic_bound.2.1 ['p'] 1 0 9999
      ⟨.kOpGeneric, 1, 1, 1, .Allowed, 1, 0, 1, ['q'], 0⟩ 18
      ['p', '|', '1', '|', '1', '|', '1', '|', '1', '|', '0', '|', '2', '|', 'q', '|',
        '0', '\n'] (by rfl),
   sendReport_atomic_bound.2.2 0 3 7 ['a'] (by decide) (by decide)⟩

/-- Claim C4 is refuted as stated for one degenerate operation: a report
whose operation is the dropped kOpProcessTreeCompleted sentinel has a
serialized text far beyond the atomic bound, yet SendReport succeeds
(returning ok none) instead of terminating fatally, because such reports
are discarded before serialization (see claim C10). -/
theorem sendReport_treeCompleted_oversize_silent :
    maxMessageLength ≤ (serializeReport ['p'] 1
      ⟨.kOpProcessTreeCompleted, 1, 1, 1, .Allowed, 1, 0, 1,
        List.replicate 4200 'a', 0⟩).length ∧
    SendReport ['p'] 1 0 9999
      ⟨.kOpProcessTreeCompleted, 1, 1, 1, .Allowed, 1, 0, 1,
        List.replicate 4200 'a', 0⟩ = .ok none :=
  ⟨by
    have h := serializeReport_path_le ['p'] 1
      ⟨.kOpProcessTreeCompleted, 1, 1, 1, .Allowed, 1, 0, 1, List.replicate 4200 'a', 0⟩
    simp only [List.length_replicate] at h
    have hm : maxMessageLength = 4092 := rfl
    omega,
   rfl⟩
